import Mathlib

set_option maxRecDepth 100000

/-
Shallow embedding of src/main.c (Zephyr BLE notification-throughput sample).
Machine integers are modelled as Nat/Int with explicit reductions where
the C code can wrap.
-/

/-- uint16_t conversion of a C int value. -/
def toU16 (i : Int) : Nat := (i % 65536).toNat

/-- size_t conversion of a C int value (64-bit target). -/
def toU64 (i : Int) : Nat := (i % 18446744073709551616).toNat

/-- Modulus of the uint32_t pattern counter m_msg_idx_cnt. -/
def UINT32_MOD : Nat := 4294967296

/-- The wrap bound in notify_thread: UINT16_MAX shifted left by one, i.e. 131070. -/
def CNT_WRAP : Nat := 131070

/-- MTU_OVERHEAD from main.c. -/
def MTU_OVERHEAD : Nat := 3

/-- One byte of the pattern: shift 9 for an odd counter, 1 for an even one,
then mask to a byte (main.c lines 284-285). -/
def patternByte (cnt : Nat) : Nat :=
  if cnt &&& 1 = 1 then (cnt >>> 9) &&& 255 else (cnt >>> 1) &&& 255

/-- The for-loop of notify_thread filling m_msg_buffer: emits n pattern bytes,
post-incrementing the uint32_t counter each time.  Returns the bytes and the
final counter. -/
def fillLoop : Nat → Nat → List Nat × Nat
  | cnt, 0 => ([], cnt)
  | cnt, n + 1 =>
    let r := fillLoop ((cnt + 1) % UINT32_MOD) n
    (patternByte cnt :: r.1, r.2)

/-- The conditional reduction after a full buffer (main.c lines 287-289):
if the counter exceeds UINT16_MAX<<1 it is reduced modulo UINT16_MAX<<1. -/
def wrapCnt (cnt : Nat) : Nat := if cnt > CNT_WRAP then cnt % CNT_WRAP else cnt

/-- PatternGenerator.NextBuffer: generate len bytes from the counter, then
apply the end-of-buffer reduction.  Returns (buffer, new counter). -/
def nextBuffer (cnt len : Nat) : List Nat × Nat :=
  let r := fillLoop cnt len
  (r.1, wrapCnt r.2)

lemma fillLoop_length (cnt n : Nat) : (fillLoop cnt n).1.length = n := by
  induction n generalizing cnt with
  | zero => rfl
  | succ n ih => simp [fillLoop, ih]

lemma nextBuffer_length (cnt n : Nat) : (nextBuffer cnt n).1.length = n := by
  simp [nextBuffer, fillLoop_length]

/-- Claim C1: the continuity law NextBuffer(a) ++ NextBuffer(b) =
NextBuffer(a+b) fails on the code.  From counter 131070, the split calls
a = 1, b = 1 produce [255, 0] while the single call of length 2 produces
[255, 255]: the end-of-buffer reduction modulo 131070 (UINT16_MAX shifted
left by one) changes the bytes that follow, whereas the modulus 131072 the
spec requires would be invisible to the pattern. -/
theorem pattern_wrap_breaks_continuity :
    (nextBuffer 131070 1).1 ++ (nextBuffer (nextBuffer 131070 1).2 1).1 ≠
      (nextBuffer 131070 2).1 ∧
    (nextBuffer 131070 1).1 ++ (nextBuffer (nextBuffer 131070 1).2 1).1 = [255, 0] ∧
    (nextBuffer 131070 2).1 = [255, 255] := by
  decide

/-- Claim C2: the spec says the counter is reduced modulo 131072 after each
full buffer; the code reduces modulo 131070.  A buffer of length 20 (MTU 23)
started at counter 131051 leaves the counter at 131071, which the code maps
to 1, while reduction modulo 131072 would leave 131071. -/
theorem pattern_wrap_modulus_mismatch :
    (nextBuffer 131051 20).2 = 1 ∧
    131071 % 131072 = 131071 ∧
    wrapCnt 131071 ≠ 131071 % 131072 := by
  decide

/-- C -ENODEV as returned by send_data when no connection is active. -/
def ENODEV : Int := 19

/-- The byte slice bt_gatt_notify is given: len bytes starting at offset off. -/
def fragAt (data : List Nat) (off n : Nat) : List Nat := (data.drop off).take n

/-- The while-loop of send_data (main.c lines 127-137), with an explicit fuel
bound (the C loop has no bound of its own; every claim below shows the fuel is
never exhausted).  chan k is the error code bt_gatt_notify returns for the
k-th notify call of this send_data invocation (0 = accepted).  State: next
call index k, offset of the last sent fragment off, its length fragLen,
remaining byte count, last error err, and the list of (offset, bytes) sent so
far.  Returns none only on fuel exhaustion. -/
def sendLoop (chan : Nat → Int) (data : List Nat) (mtu : Nat) :
    Nat → Nat → Nat → Nat → Nat → Int → List (Nat × List Nat) →
    Option (List (Nat × List Nat) × Int)
  | 0, _, _, _, remaining, err, sent =>
    if err ≠ 0 ∨ remaining = 0 then some (sent, err) else none
  | fuel + 1, k, off, fragLen, remaining, err, sent =>
    if err ≠ 0 ∨ remaining = 0 then some (sent, err)
    else
      let off' := off + fragLen
      let fr : Nat × Nat :=
        if (remaining : Int) ≤ (mtu : Int) - (MTU_OVERHEAD : Int) then
          (remaining, 0)
        else
          (fragLen, toU16 ((remaining : Int) - (fragLen : Int)))
      sendLoop chan data mtu fuel (k + 1) off' fr.1 fr.2 (chan k)
        (sent ++ [(off', fragAt data off' fr.1)])

/-- FragmentingSender.Send = send_data (main.c lines 112-140).  connected
models default_conn ≠ NULL; mtu is the uint16_t snapshot of m_mtu; data the
buffer (its length is the uint16_t len argument).  Returns the notify calls
made (offset, bytes) and the returned error code. -/
def send_data (connected : Bool) (chan : Nat → Int) (mtu : Nat) (data : List Nat) :
    Option (List (Nat × List Nat) × Int) :=
  if connected = false then some ([], -ENODEV)
  else if (data.length : Int) ≤ (mtu : Int) - (MTU_OVERHEAD : Int) then
    some ([(0, data)], chan 0)
  else
    let fragLen := toU16 ((mtu : Int) - (MTU_OVERHEAD : Int))
    let remaining := toU16 ((data.length : Int) - (fragLen : Int))
    sendLoop chan data mtu data.length 1 0 fragLen remaining (chan 0)
      [(0, fragAt data 0 fragLen)]

/-- ceil(a / b) on Nat. -/
def ceilDiv (a b : Nat) : Nat := (a + b - 1) / b

/-- The canonical fragment list: ceil(L/u) fragments of u bytes each at
offsets 0, u, 2u, ..., the final one truncated at the end of the buffer. -/
def canonFrags (data : List Nat) (u : Nat) : List (Nat × List Nat) :=
  (List.range (ceilDiv data.length u)).map
    (fun i => (i * u, fragAt data (i * u) u))

lemma cdiv_zero (u : Nat) : ceilDiv 0 u = 0 := by
  unfold ceilDiv
  cases u with
  | zero => rfl
  | succ n => exact Nat.div_eq_of_lt (by omega)

lemma cdiv_one_of_le (r u : Nat) (h1 : 1 ≤ r) (h2 : r ≤ u) : ceilDiv r u = 1 := by
  unfold ceilDiv
  have h : r + u - 1 = (r - 1) + u := by omega
  rw [h, Nat.add_div_right _ (by omega)]
  have : (r - 1) / u = 0 := Nat.div_eq_of_lt (by omega)
  omega

lemma cdiv_succ_of_lt (r u : Nat) (h1 : 1 ≤ u) (h2 : u < r) :
    ceilDiv r u = ceilDiv (r - u) u + 1 := by
  unfold ceilDiv
  have h : r + u - 1 = ((r - u) + u - 1) + u := by omega
  rw [h, Nat.add_div_right _ (by omega)]

lemma fragAt_full (data : List Nat) (off n m : Nat)
    (hn : data.length ≤ off + n) (hm : data.length ≤ off + m) :
    fragAt data off n = fragAt data off m := by
  unfold fragAt
  rw [List.take_of_length_le (by simp [List.length_drop]; omega),
      List.take_of_length_le (by simp [List.length_drop]; omega)]

lemma fragAt_length_le (data : List Nat) (off n : Nat) :
    (fragAt data off n).length ≤ n := by
  unfold fragAt
  rw [List.length_take]
  exact Nat.min_le_left _ _

/-- Shifting one fragment out of a canonical range of fragments. -/
lemma frag_range_shift (data : List Nat) (u b m : Nat) :
    (b, fragAt data b u) ::
      (List.range m).map (fun i => (b + u + i * u, fragAt data (b + u + i * u) u)) =
    (List.range (m + 1)).map (fun i => (b + i * u, fragAt data (b + i * u) u)) := by
  rw [List.range_succ_eq_map, List.map_cons, List.map_map]
  have h0 : b + 0 * u = b := by ring
  refine congrArg₂ List.cons ?_ ?_
  · rw [h0]
  · apply List.map_congr_left
    intro i _
    simp only [Function.comp]
    have h : b + Nat.succ i * u = b + u + i * u := by rw [Nat.succ_mul]; ring
    rw [h]

lemma sendLoop_done (chan : Nat → Int) (data : List Nat) (mtu fuel k off fragLen : Nat)
    (sent : List (Nat × List Nat)) :
    sendLoop chan data mtu fuel k off fragLen 0 0 sent = some (sent, 0) := by
  cases fuel <;> simp [sendLoop]

lemma sendLoop_err (chan : Nat → Int) (data : List Nat)
    (mtu fuel k off fragLen remaining : Nat) (e : Int)
    (sent : List (Nat × List Nat)) (he : e ≠ 0) :
    sendLoop chan data mtu fuel k off fragLen remaining e sent = some (sent, e) := by
  cases fuel <;> simp [sendLoop, he]

/-- Invariant run of the send loop when every fragment is accepted: starting
just after an accepted fragment ending at offset off + u with remaining bytes
left, the loop emits the canonical fragments of the rest of the buffer. -/
lemma sendLoop_accepts (chan : Nat → Int) (data : List Nat) (mtu u : Nat)
    (hu : 1 ≤ u) (hmu : (mtu : Int) - (MTU_OVERHEAD : Int) = (u : Int))
    (hchan : ∀ k, chan k = 0) :
    ∀ (fuel remaining k off : Nat) (sent : List (Nat × List Nat)),
      remaining ≤ fuel * u →
      off + u + remaining = data.length →
      remaining < 65536 →
      sendLoop chan data mtu fuel k off u remaining 0 sent =
        some (sent ++ (List.range (ceilDiv remaining u)).map
          (fun i => (off + u + i * u, fragAt data (off + u + i * u) u)), 0) := by
  intro fuel
  induction fuel with
  | zero =>
    intro remaining k off sent hfuel hlen hr16
    have h0 : remaining = 0 := by
      rw [Nat.zero_mul] at hfuel
      omega
    subst h0
    simp [sendLoop, cdiv_zero]
  | succ fuel ih =>
    intro remaining k off sent hfuel hlen hr16
    by_cases h0 : remaining = 0
    · subst h0
      simp [sendLoop, cdiv_zero]
    · have hcond : ¬ ((0:Int) ≠ 0 ∨ remaining = 0) := by simp [h0]
      simp only [sendLoop]
      rw [if_neg hcond]
      by_cases hle : remaining ≤ u
      · have hle' : (remaining : Int) ≤ (mtu : Int) - (MTU_OVERHEAD : Int) := by
          rw [hmu]
          exact_mod_cast hle
        rw [if_pos hle']
        simp only
        rw [hchan k, sendLoop_done]
        rw [cdiv_one_of_le remaining u (by omega) hle]
        have hr1 : (List.range 1).map
            (fun i => (off + u + i * u, fragAt data (off + u + i * u) u)) =
            [(off + u, fragAt data (off + u) u)] := by
          have hb : off + u + 0 * u = off + u := by ring
          rw [show List.range 1 = [0] from rfl, List.map_singleton, hb]
        rw [hr1]
        have hfr : fragAt data (off + u) remaining = fragAt data (off + u) u :=
          fragAt_full data (off + u) remaining u (by omega) (by omega)
        rw [hfr]
      · have hle' : ¬ ((remaining : Int) ≤ (mtu : Int) - (MTU_OVERHEAD : Int)) := by
          rw [hmu]
          intro hc
          exact hle (by exact_mod_cast hc)
        rw [if_neg hle']
        simp only
        have ht : toU16 ((remaining : Int) - (u : Int)) = remaining - u := by
          unfold toU16
          omega
        rw [hchan k, ht]
        rw [ih (remaining - u) (k + 1) (off + u) (sent ++ [(off + u, fragAt data (off + u) u)])
          (by rw [Nat.succ_mul] at hfuel; omega) (by omega) (by omega)]
        rw [cdiv_succ_of_lt remaining u hu (by omega)]
        rw [List.append_assoc, List.singleton_append,
            frag_range_shift data u (off + u) (ceilDiv (remaining - u) u)]

/-- Run of the send loop when the channel accepts calls k..kf-1 and rejects
call kf with error e: the loop stops right after call kf and propagates e. -/
lemma sendLoop_fails (chan : Nat → Int) (data : List Nat) (mtu u : Nat)
    (hu : 1 ≤ u) (hmu : (mtu : Int) - (MTU_OVERHEAD : Int) = (u : Int))
    (kf : Nat) (e : Int) (he : e ≠ 0) (hkf : chan kf = e) :
    ∀ (fuel remaining k off : Nat) (sent : List (Nat × List Nat)),
      remaining ≤ fuel * u →
      off + u + remaining = data.length →
      remaining < 65536 →
      k ≤ kf →
      kf - k < ceilDiv remaining u →
      (∀ j, k ≤ j → j < kf → chan j = 0) →
      sendLoop chan data mtu fuel k off u remaining 0 sent =
        some (sent ++ (List.range (kf - k + 1)).map
          (fun i => (off + u + i * u, fragAt data (off + u + i * u) u)), e) := by
  intro fuel
  induction fuel with
  | zero =>
    intro remaining k off sent hfuel hlen hr16 hk hcnt hj
    rw [Nat.zero_mul] at hfuel
    have h0 : remaining = 0 := by omega
    subst h0
    rw [cdiv_zero] at hcnt
    omega
  | succ fuel ih =>
    intro remaining k off sent hfuel hlen hr16 hk hcnt hj
    by_cases h0 : remaining = 0
    · subst h0
      rw [cdiv_zero] at hcnt
      omega
    · have hcond : ¬ ((0:Int) ≠ 0 ∨ remaining = 0) := by simp [h0]
      simp only [sendLoop]
      rw [if_neg hcond]
      have hr1 : (List.range (0 + 1)).map
          (fun i => (off + u + i * u, fragAt data (off + u + i * u) u)) =
          [(off + u, fragAt data (off + u) u)] := by
        have hb : off + u + 0 * u = off + u := by ring
        rw [show List.range (0 + 1) = [0] from rfl, List.map_singleton, hb]
      by_cases hkk : k = kf
      · subst hkk
        by_cases hle : remaining ≤ u
        · have hle' : (remaining : Int) ≤ (mtu : Int) - (MTU_OVERHEAD : Int) := by
            rw [hmu]
            exact_mod_cast hle
          rw [if_pos hle']
          simp only
          rw [hkf, sendLoop_err _ _ _ _ _ _ _ _ _ _ he]
          rw [Nat.sub_self, hr1]
          have hfr : fragAt data (off + u) remaining = fragAt data (off + u) u :=
            fragAt_full data (off + u) remaining u (by omega) (by omega)
          rw [hfr]
        · have hle' : ¬ ((remaining : Int) ≤ (mtu : Int) - (MTU_OVERHEAD : Int)) := by
            rw [hmu]
            intro hc
            exact hle (by exact_mod_cast hc)
          rw [if_neg hle']
          simp only
          rw [hkf, sendLoop_err _ _ _ _ _ _ _ _ _ _ he]
          rw [Nat.sub_self, hr1]
      · have hklt : k < kf := by omega
        by_cases hle : remaining ≤ u
        · rw [cdiv_one_of_le remaining u (by omega) hle] at hcnt
          omega
        · have hle' : ¬ ((remaining : Int) ≤ (mtu : Int) - (MTU_OVERHEAD : Int)) := by
            rw [hmu]
            intro hc
            exact hle (by exact_mod_cast hc)
          rw [if_neg hle']
          simp only
          have ht : toU16 ((remaining : Int) - (u : Int)) = remaining - u := by
            unfold toU16
            omega
          rw [hj k (by omega) hklt, ht]
          rw [cdiv_succ_of_lt remaining u hu (by omega)] at hcnt
          rw [ih (remaining - u) (k + 1) (off + u)
            (sent ++ [(off + u, fragAt data (off + u) u)])
            (by rw [Nat.succ_mul] at hfuel; omega) (by omega) (by omega)
            (by omega) (by omega) (fun j h1 h2 => hj j (by omega) h2)]
          have hn : kf - k + 1 = (kf - (k + 1) + 1) + 1 := by omega
          rw [hn, List.append_assoc, List.singleton_append,
              frag_range_shift data u (off + u) (kf - (k + 1) + 1)]

lemma cdiv_mul_ge (L u : Nat) (hu : 1 ≤ u) : L ≤ ceilDiv L u * u := by
  unfold ceilDiv
  have hdm := Nat.div_add_mod (L + u - 1) u
  have hlt : (L + u - 1) % u < u := Nat.mod_lt _ (by omega)
  rw [Nat.mul_comm]
  generalize hq : u * ((L + u - 1) / u) = m at hdm ⊢
  omega

lemma flatten_chunks (u : Nat) :
    ∀ (n : Nat) (l : List Nat), l.length ≤ n * u →
      ((List.range n).map (fun i => (l.drop (i * u)).take u)).flatten = l := by
  intro n
  induction n with
  | zero =>
    intro l h
    rw [Nat.zero_mul] at h
    have hnil : l = [] := List.eq_nil_of_length_eq_zero (by omega)
    subst hnil
    rfl
  | succ n ih =>
    intro l h
    rw [List.range_succ_eq_map, List.map_cons, List.map_map, List.flatten_cons]
    have hfun : ∀ i ∈ List.range n,
        ((fun i => (l.drop (i * u)).take u) ∘ Nat.succ) i =
        (fun i => ((l.drop u).drop (i * u)).take u) i := by
      intro i _
      simp only [Function.comp]
      rw [List.drop_drop]
      rw [show Nat.succ i * u = u + i * u from by rw [Nat.succ_mul]; ring]
    rw [List.map_congr_left hfun]
    rw [ih (l.drop u) (by rw [Nat.succ_mul] at h; simp [List.length_drop]; omega)]
    rw [Nat.zero_mul, List.drop_zero, List.take_append_drop]

lemma canonFrags_length (data : List Nat) (u : Nat) :
    (canonFrags data u).length = ceilDiv data.length u := by
  simp [canonFrags]

lemma canonFrags_sizes (data : List Nat) (u : Nat) :
    ∀ p ∈ canonFrags data u, p.2.length ≤ u := by
  intro p hp
  unfold canonFrags at hp
  obtain ⟨i, _, rfl⟩ := List.mem_map.mp hp
  exact fragAt_length_le data _ u

lemma canonFrags_flatten (data : List Nat) (u : Nat) (hu : 1 ≤ u) :
    ((canonFrags data u).map Prod.snd).flatten = data := by
  unfold canonFrags
  rw [List.map_map]
  have hfun : ∀ i ∈ List.range (ceilDiv data.length u),
      (Prod.snd ∘ (fun i => (i * u, fragAt data (i * u) u))) i =
      (fun i => (data.drop (i * u)).take u) i := by
    intro i _
    rfl
  rw [List.map_congr_left hfun]
  exact flatten_chunks u (ceilDiv data.length u) data (cdiv_mul_ge data.length u hu)

lemma canonFrags_ordered (data : List Nat) (u : Nat) (hu : 1 ≤ u) :
    (canonFrags data u).Pairwise (fun a b => a.1 < b.1) := by
  unfold canonFrags
  apply List.Pairwise.map
  · intro a b hab
    exact (Nat.mul_lt_mul_right (by omega)).mpr hab
  · exact List.pairwise_lt_range _

/-- Claim C3 (amended): for MTU values 23 ≤ M ≤ configuredMax ≤ 65535 and
payload length 1 ≤ L ≤ 65535 with an active connection and a channel that
accepts every fragment, send_data issues exactly ceil(L/(M-3)) notifications,
each of length at most M-3, at strictly increasing offsets, and their
concatenation is the original payload.  (The original claim fails at L = 0,
where the code issues one empty notification instead of none.) -/
theorem send_data_fragments_spec (cfg mtu : Nat) (data : List Nat) (chan : Nat → Int)
    (hm : 23 ≤ mtu) (hcfg : mtu ≤ cfg) (hc : cfg ≤ 65535)
    (hL : 1 ≤ data.length) (hL2 : data.length ≤ 65535)
    (hchan : ∀ k, chan k = 0) :
    send_data true chan mtu data = some (canonFrags data (mtu - 3), 0) ∧
    (canonFrags data (mtu - 3)).length = ceilDiv data.length (mtu - 3) ∧
    (∀ p ∈ canonFrags data (mtu - 3), p.2.length ≤ mtu - 3) ∧
    ((canonFrags data (mtu - 3)).map Prod.snd).flatten = data ∧
    (canonFrags data (mtu - 3)).Pairwise (fun a b => a.1 < b.1) := by
  have h3 : MTU_OVERHEAD = 3 := rfl
  have hu : 1 ≤ mtu - 3 := by omega
  have hmuInt : (mtu : Int) - (MTU_OVERHEAD : Int) = ((mtu - 3 : Nat) : Int) := by
    rw [h3]
    push_cast
    omega
  refine ⟨?_, canonFrags_length data (mtu - 3), canonFrags_sizes data (mtu - 3),
    canonFrags_flatten data (mtu - 3) hu, canonFrags_ordered data (mtu - 3) hu⟩
  by_cases hsingle : data.length ≤ mtu - 3
  · have hcond : (data.length : Int) ≤ (mtu : Int) - (MTU_OVERHEAD : Int) := by
      rw [hmuInt]
      exact_mod_cast hsingle
    simp only [send_data]
    rw [if_neg (by simp), if_pos hcond, hchan 0]
    unfold canonFrags
    rw [cdiv_one_of_le data.length (mtu - 3) hL hsingle]
    rw [show List.range 1 = [0] from rfl, List.map_singleton, Nat.zero_mul]
    unfold fragAt
    rw [List.drop_zero, List.take_of_length_le hsingle]
  · have hlen : mtu - 3 < data.length := by omega
    have hcond : ¬ ((data.length : Int) ≤ (mtu : Int) - (MTU_OVERHEAD : Int)) := by
      rw [hmuInt]
      intro hcc
      exact hsingle (by exact_mod_cast hcc)
    simp only [send_data]
    rw [if_neg (by simp), if_neg hcond]
    have htf : toU16 ((mtu : Int) - (MTU_OVERHEAD : Int)) = mtu - 3 := by
      rw [hmuInt]
      unfold toU16
      omega
    have htr : toU16 ((data.length : Int) - ((mtu - 3 : Nat) : Int)) = data.length - (mtu - 3) := by
      unfold toU16
      omega
    simp only [htf, htr, hchan]
    have hfuel : data.length - (mtu - 3) ≤ data.length * (mtu - 3) := by
      have hself : data.length ≤ data.length * (mtu - 3) :=
        Nat.le_mul_of_pos_right data.length (by omega)
      omega
    rw [sendLoop_accepts chan data mtu (mtu - 3) hu hmuInt hchan data.length
      (data.length - (mtu - 3)) 1 0 [(0, fragAt data 0 (mtu - 3))]
      hfuel (by omega) (by omega)]
    unfold canonFrags
    rw [cdiv_succ_of_lt data.length (mtu - 3) hu hlen]
    rw [List.singleton_append, frag_range_shift data (mtu - 3) 0
      (ceilDiv (data.length - (mtu - 3)) (mtu - 3))]
    refine congrArg _ (congrArg₂ Prod.mk ?_ rfl)
    apply List.map_congr_left
    intro i _
    rw [Nat.zero_add]

/-- Witness for C3: MTU 64, payload length 150, all fragments accepted:
three notifications of sizes 61, 61, 28 and result 0. -/
theorem send_data_fragments_spec_witness :
    (send_data true (fun _ => 0) 64 (List.replicate 150 7)).map
      (fun r => (r.1.map (fun p => p.2.length), r.2)) = some ([61, 61, 28], 0) := by
  have h := (send_data_fragments_spec 247 64 (List.replicate 150 7) (fun _ => 0)
    (by decide) (by decide) (by decide) (by decide) (by decide) (fun k => rfl)).1
  rw [h]
  decide

/-- Counterexample for C3 as stated: with an active connection and MTU 64,
the empty payload produces one notify call, while ceil(0 / 61) = 0. -/
theorem send_data_zero_length_fragment_count :
    (send_data true (fun _ => 0) 64 []).map (fun r => r.1.length) = some 1 ∧
    ceilDiv 0 61 = 0 := by
  decide

/-- Claim C8: in a multi-fragment send, if the channel accepts calls
0..kf-1 and rejects call kf with error e, then exactly the fragments
0..kf are handed to the channel and e is returned unchanged: no fragment
after kf is sent and there is no retry. -/
theorem send_abort_on_fragment_failure (mtu : Nat) (data : List Nat) (chan : Nat → Int)
    (kf : Nat) (e : Int)
    (hm : 23 ≤ mtu) (hm2 : mtu ≤ 65535) (hL2 : data.length ≤ 65535)
    (hmulti : mtu - 3 < data.length)
    (he : e ≠ 0) (hkf : chan kf = e) (hj : ∀ j, j < kf → chan j = 0)
    (hcnt : kf < ceilDiv data.length (mtu - 3)) :
    send_data true chan mtu data =
      some ((List.range (kf + 1)).map
        (fun i => (i * (mtu - 3), fragAt data (i * (mtu - 3)) (mtu - 3))), e) ∧
    ((List.range (kf + 1)).map
        (fun i => (i * (mtu - 3), fragAt data (i * (mtu - 3)) (mtu - 3)))).length = kf + 1 := by
  have h3 : MTU_OVERHEAD = 3 := rfl
  have hu : 1 ≤ mtu - 3 := by omega
  have hmuInt : (mtu : Int) - (MTU_OVERHEAD : Int) = ((mtu - 3 : Nat) : Int) := by
    rw [h3]
    push_cast
    omega
  refine ⟨?_, by simp⟩
  have hcond : ¬ ((data.length : Int) ≤ (mtu : Int) - (MTU_OVERHEAD : Int)) := by
    rw [hmuInt]
    intro hcc
    have : data.length ≤ mtu - 3 := by exact_mod_cast hcc
    omega
  simp only [send_data]
  rw [if_neg (by simp), if_neg hcond]
  have htf : toU16 ((mtu : Int) - (MTU_OVERHEAD : Int)) = mtu - 3 := by
    rw [hmuInt]
    unfold toU16
    omega
  have htr : toU16 ((data.length : Int) - ((mtu - 3 : Nat) : Int)) = data.length - (mtu - 3) := by
    unfold toU16
    omega
  simp only [htf, htr]
  by_cases hk0 : kf = 0
  · subst hk0
    rw [hkf, sendLoop_err _ _ _ _ _ _ _ _ _ _ he]
    rw [show List.range (0 + 1) = [0] from rfl, List.map_singleton, Nat.zero_mul]
  · rw [hj 0 (by omega)]
    rw [cdiv_succ_of_lt data.length (mtu - 3) hu hmulti] at hcnt
    have hfuel : data.length - (mtu - 3) ≤ data.length * (mtu - 3) := by
      have hself : data.length ≤ data.length * (mtu - 3) :=
        Nat.le_mul_of_pos_right data.length (by omega)
      omega
    rw [sendLoop_fails chan data mtu (mtu - 3) hu hmuInt kf e he hkf data.length
      (data.length - (mtu - 3)) 1 0 [(0, fragAt data 0 (mtu - 3))]
      hfuel (by omega) (by omega) (by omega) (by omega)
      (fun j h1 h2 => hj j h2)]
    rw [show kf - 1 + 1 = kf from by omega]
    rw [List.singleton_append, frag_range_shift data (mtu - 3) 0 kf]
    refine congrArg _ (congrArg₂ Prod.mk ?_ rfl)
    apply List.map_congr_left
    intro i _
    rw [Nat.zero_add]

/-- Witness for C8: MTU 64, payload 150 bytes, channel rejects call 1 with
error -5: two notify calls happen and -5 is returned. -/
theorem send_abort_on_fragment_failure_witness :
    (send_data true (fun j => if j = 1 then -5 else 0) 64 (List.replicate 150 7)).map
      (fun r => (r.1.length, r.2)) = some (2, -5) := by
  have h := (send_abort_on_fragment_failure 64 (List.replicate 150 7)
    (fun j => if j = 1 then -5 else 0) 1 (-5) (by decide) (by decide) (by decide)
    (by decide) (by decide) rfl
    (fun j hj => by
      have hj0 : j = 0 := by omega
      subst hj0
      rfl)
    (by decide)).1
  rw [h]
  decide

/-- The size_t buffer length computed in each Streaming iteration of
notify_thread (main.c line 282): m_mtu - MTU_OVERHEAD in C arithmetic
(int subtraction converted to size_t). -/
def streamLen (mtu : Nat) : Nat := toU64 ((mtu : Int) - (MTU_OVERHEAD : Int))

lemma streamLen_eq (mtu : Nat) (hm : 3 ≤ mtu) (hm2 : mtu ≤ 65535) :
    streamLen mtu = mtu - 3 := by
  unfold streamLen toU64
  have h3 : (MTU_OVERHEAD : Int) = 3 := rfl
  rw [h3]
  omega

/-- One Streaming iteration of notify_thread (main.c lines 280-290): compute
len = m_mtu - MTU_OVERHEAD, fill the buffer from the pattern counter, and
hand it to send_data with the same MTU.  Returns the send result and the new
counter. -/
def pumpIter (connected : Bool) (chan : Nat → Int) (mtu cnt : Nat) :
    Option (List (Nat × List Nat) × Int) × Nat :=
  let len := streamLen mtu
  let r := nextBuffer cnt len
  (send_data connected chan mtu r.1, r.2)

/-- Claim C9: under the MTU invariant 23 ≤ MTU ≤ configuredMax (≤ 65535, as
m_mtu is a uint16_t), the size_t length MTU - 3 computed by the pump does not
underflow, and every buffer index i < MTU - 3 is strictly inside the
m_msg_buffer capacity of configuredMax - 3 bytes, so the out-of-bounds case
is unreachable. -/
theorem stream_len_in_bounds (cfg mtu : Nat)
    (hm : 23 ≤ mtu) (hcfg : mtu ≤ cfg) (hc : cfg ≤ 65535) :
    streamLen mtu = mtu - 3 ∧ ∀ i, i < streamLen mtu → i < cfg - 3 := by
  have he := streamLen_eq mtu (by omega) (by omega)
  refine ⟨he, ?_⟩
  intro i hi
  rw [he] at hi
  omega

/-- Witness for C9 at MTU 23, configuredMax 247. -/
theorem stream_len_in_bounds_witness :
    streamLen 23 = 20 ∧ 19 < 247 - 3 := by
  have h := stream_len_in_bounds 247 23 (by decide) (by decide) (by decide)
  exact ⟨h.1, h.2 19 (by rw [h.1]; decide)⟩

/-- Claim C10: in a Streaming iteration with an active connection and the MTU
unchanged between buffer generation and send, the generated buffer has length
exactly MTU - 3, send_data takes its single-notification branch, and exactly
one notify call carrying the whole buffer is made: the fragmenting loop is
never entered on the pump path. -/
theorem pump_single_notification (mtu cnt : Nat) (chan : Nat → Int)
    (hm : 23 ≤ mtu) (hm2 : mtu ≤ 65535) :
    (nextBuffer cnt (streamLen mtu)).1.length = mtu - 3 ∧
    (pumpIter true chan mtu cnt).1 =
      some ([(0, (nextBuffer cnt (streamLen mtu)).1)], chan 0) := by
  have he := streamLen_eq mtu (by omega) hm2
  have hlen : (nextBuffer cnt (streamLen mtu)).1.length = mtu - 3 := by
    rw [nextBuffer_length, he]
  refine ⟨hlen, ?_⟩
  show send_data true chan mtu (nextBuffer cnt (streamLen mtu)).1 =
    some ([(0, (nextBuffer cnt (streamLen mtu)).1)], chan 0)
  unfold send_data
  rw [if_neg (by simp)]
  have hcond : (((nextBuffer cnt (streamLen mtu)).1.length : Int)) ≤
      (mtu : Int) - (MTU_OVERHEAD : Int) := by
    rw [hlen]
    have h3 : (MTU_OVERHEAD : Int) = 3 := rfl
    rw [h3]
    omega
  rw [if_pos hcond]

/-- Witness for C10 at MTU 23, counter 0, all-accepting channel. -/
theorem pump_single_notification_witness :
    (nextBuffer 0 (streamLen 23)).1.length = 20 ∧
    (pumpIter true (fun _ => 0) 23 0).1 =
      some ([(0, (nextBuffer 0 (streamLen 23)).1)], 0) := by
  have h := pump_single_notification 23 0 (fun _ => 0) (by decide) (by decide)
  exact ⟨h.1, h.2⟩

/-- write_cmd_cb (main.c lines 89-104): with at least 2 bytes and opcode
0x01, set m_notif_send to (byte1 == 0x01); otherwise leave it unchanged.
Always return the full length. -/
def write_cmd_cb (notifSend : Bool) (bytes : List Nat) : Bool × Nat :=
  if 2 ≤ bytes.length then
    if bytes.getD 0 0 = 1 then
      (decide (bytes.getD 1 0 = 1), bytes.length)
    else
      (notifSend, bytes.length)
  else
    (notifSend, bytes.length)

/-- The link-layer events delivered to the handlers in main.c.  infoOk models
whether the bt_conn_get_info call inside the handler succeeds. -/
inductive BtEvent where
  | connEvt (hciErr : Nat) (infoOk : Bool)
  | discEvt (reason : Nat) (infoOk : Bool)
  | mtuEvt (tx rx : Nat)
  | cccEvt (value : Nat)
  | writeEvt (bytes : List Nat)
deriving DecidableEq

/-- Outward calls the handlers make: bt_le_adv_start and
bt_conn_disconnect with an HCI reason code. -/
inductive BtAction where
  | advStart
  | termConn (reason : Nat)
deriving DecidableEq

/-- The shared mutable state of main.c: m_mtu, default_conn (as a flag),
test_ready, m_notif_enabled, m_notif_send. -/
structure SysState where
  mtu : Nat
  connActive : Bool
  testReady : Bool
  notifEnabled : Bool
  notifSend : Bool
deriving DecidableEq

/-- HCI reason 0x13 used at main.c line 159. -/
def BT_HCI_ERR_REMOTE_USER_TERM_CONN : Nat := 0x13

/-- HCI reason 0x16, the local-host termination reason the spec names. -/
def BT_HCI_ERR_LOCALHOST_TERM_CONN : Nat := 0x16

/-- The state at boot: m_mtu = 23, no connection, all flags false. -/
def initState : SysState :=
  { mtu := 23, connActive := false, testReady := false,
    notifEnabled := false, notifSend := false }

/-- One event handler dispatch (connected, disconnected, mtu_updated,
notif_ccc_cb, write_cmd_cb from main.c), with cfg = CONFIG_BT_L2CAP_TX_MTU.
Returns the new state and the outward calls made. -/
def handleEvent (cfg : Nat) (s : SysState) (e : BtEvent) : SysState × List BtAction :=
  match e with
  | .connEvt hciErr infoOk =>
    if hciErr ≠ 0 then (s, [])
    else if s.connActive then
      (s, [BtAction.termConn BT_HCI_ERR_REMOTE_USER_TERM_CONN])
    else
      let s1 := { s with connActive := true }
      if infoOk then ({ s1 with mtu := 23 }, []) else (s1, [])
  | .discEvt _reason infoOk =>
    let s1 := { s with testReady := false, connActive := false }
    if infoOk then (s1, [BtAction.advStart]) else (s1, [])
  | .mtuEvt tx _rx =>
    ({ s with mtu := if tx ≥ cfg then cfg else tx }, [])
  | .cccEvt value =>
    ({ s with notifEnabled := value &&& 1 != 0 }, [])
  | .writeEvt bytes =>
    ({ s with notifSend := (write_cmd_cb s.notifSend bytes).1 }, [])

/-- States reachable from boot by any event sequence. -/
inductive ReachableSt (cfg : Nat) : SysState → Prop where
  | init : ReachableSt cfg initState
  | next (s : SysState) (e : BtEvent) (hs : ReachableSt cfg s) :
      ReachableSt cfg (handleEvent cfg s e).1

/-- States reachable from boot when every MTU-exchange event reports a
transmit size of at least 23 (as the ATT layer guarantees). -/
inductive ReachableStMtuOk (cfg : Nat) : SysState → Prop where
  | init : ReachableStMtuOk cfg initState
  | next (s : SysState) (e : BtEvent) (hs : ReachableStMtuOk cfg s)
      (he : ∀ tx rx, e = BtEvent.mtuEvt tx rx → 23 ≤ tx) :
      ReachableStMtuOk cfg (handleEvent cfg s e).1

/-- Claim C4 (amended): provided every MTU-exchange event reports txSize at
least 23 and the configured maximum is at least 23, every reachable state
keeps 23 ≤ m_mtu ≤ configuredMax.  (Also note the connect handler resets the
MTU to 23 only when its connection-info query succeeds; the invariant holds
either way because the previous value was already in range.) -/
theorem mtu_bounds_invariant (cfg : Nat) (hcfg : 23 ≤ cfg) (s : SysState)
    (hs : ReachableStMtuOk cfg s) : 23 ≤ s.mtu ∧ s.mtu ≤ cfg := by
  induction hs with
  | init => exact ⟨Nat.le_refl 23, hcfg⟩
  | next s e hs he ih =>
    cases e with
    | connEvt hciErr infoOk =>
      by_cases h1 : hciErr = 0
      · by_cases h2 : s.connActive
        · simpa [handleEvent, h1, h2] using ih
        · by_cases h3 : infoOk
          · simp [handleEvent, h1, h2, h3]
            omega
          · simpa [handleEvent, h1, h2, h3] using ih
      · simpa [handleEvent, h1] using ih
    | discEvt reason infoOk =>
      by_cases h : infoOk <;> simpa [handleEvent, h] using ih
    | mtuEvt tx rx =>
      have htx : 23 ≤ tx := he tx rx rfl
      by_cases h : tx ≥ cfg
      · simp [handleEvent, h]
        omega
      · simp [handleEvent, h]
        omega
    | cccEvt value => simpa [handleEvent] using ih
    | writeEvt bytes => simpa [handleEvent] using ih

/-- Witness for C4 at cfg = 23 and the boot state. -/
theorem mtu_bounds_invariant_witness :
    23 ≤ initState.mtu ∧ initState.mtu ≤ 23 :=
  mtu_bounds_invariant 23 (by decide) initState ReachableStMtuOk.init

/-- Counterexample for C4 as stated: an MTU-exchange event with txSize 5 is
reachable (connect, then exchange) and drives m_mtu to 5 < 23, because
mtu_updated clamps only from above. -/
theorem mtu_below_23_reachable :
    ReachableSt 247
      (handleEvent 247 (handleEvent 247 initState (BtEvent.connEvt 0 true)).1
        (BtEvent.mtuEvt 5 0)).1 ∧
    (handleEvent 247 (handleEvent 247 initState (BtEvent.connEvt 0 true)).1
        (BtEvent.mtuEvt 5 0)).1.mtu = 5 := by
  constructor
  · exact ReachableSt.next _ _ (ReachableSt.next _ _ ReachableSt.init)
  · decide

/-- Claim C5 (amended): every disconnect event, for any reason, clears the
readiness flag and releases the connection reference; advertising is
restarted exactly when the connection-info query succeeds — on a query
failure the handler returns early without restarting advertising. -/
theorem disconnect_restart_behavior (cfg reason : Nat) (s : SysState) (infoOk : Bool) :
    (handleEvent cfg s (BtEvent.discEvt reason infoOk)).1.testReady = false ∧
    (handleEvent cfg s (BtEvent.discEvt reason infoOk)).1.connActive = false ∧
    (handleEvent cfg s (BtEvent.discEvt reason infoOk)).2 =
      (if infoOk then [BtAction.advStart] else []) := by
  cases infoOk <;> simp [handleEvent]

/-- Counterexample for C5 as stated: when the connection-info query fails,
the disconnect handler performs no advertising restart. -/
theorem disconnect_no_restart_on_info_failure :
    BtAction.advStart ∉
      (handleEvent 247 { initState with connActive := true }
        (BtEvent.discEvt 8 false)).2 := by
  decide

/-- Claim C6 (amended): a successful connect event arriving while a
connection is active leaves the entire state (connection reference, MTU,
flags) unchanged and terminates the new connection — with HCI reason 0x13
(remote user terminated connection), not a local-host rejection reason. -/
theorem second_connection_rejected (cfg : Nat) (s : SysState) (infoOk : Bool)
    (h : s.connActive = true) :
    handleEvent cfg s (BtEvent.connEvt 0 infoOk) =
      (s, [BtAction.termConn BT_HCI_ERR_REMOTE_USER_TERM_CONN]) := by
  simp [handleEvent, h]

/-- Witness for C6 with an active connection in the boot state. -/
theorem second_connection_rejected_witness :
    handleEvent 247 { initState with connActive := true } (BtEvent.connEvt 0 true) =
      ({ initState with connActive := true },
        [BtAction.termConn BT_HCI_ERR_REMOTE_USER_TERM_CONN]) :=
  second_connection_rejected 247 { initState with connActive := true } true rfl

/-- Counterexample for C6 as stated: the termination reason the handler
passes is 0x13 (remote user terminated connection), which is not the
local-host termination reason 0x16 the claim names. -/
theorem second_connection_reason_not_localhost :
    (handleEvent 247 { initState with connActive := true }
      (BtEvent.connEvt 0 true)).2 =
      [BtAction.termConn BT_HCI_ERR_REMOTE_USER_TERM_CONN] ∧
    BT_HCI_ERR_REMOTE_USER_TERM_CONN ≠ BT_HCI_ERR_LOCALHOST_TERM_CONN := by
  decide

/-- Claim C7: write_cmd_cb always reports the full input length as consumed;
with length at least 2 and opcode 0x01 the streaming flag becomes
(byte1 = 0x01); a shorter write or any other opcode leaves it unchanged. -/
theorem write_cmd_semantics (flag : Bool) (bytes : List Nat) :
    (write_cmd_cb flag bytes).2 = bytes.length ∧
    (2 ≤ bytes.length → bytes.getD 0 0 = 1 →
      (write_cmd_cb flag bytes).1 = decide (bytes.getD 1 0 = 1)) ∧
    (bytes.length < 2 ∨ bytes.getD 0 0 ≠ 1 →
      (write_cmd_cb flag bytes).1 = flag) := by
  unfold write_cmd_cb
  by_cases h1 : 2 ≤ bytes.length
  · rw [if_pos h1]
    by_cases h2 : bytes.getD 0 0 = 1
    · rw [if_pos h2]
      refine ⟨rfl, fun _ _ => rfl, ?_⟩
      intro hc
      rcases hc with hc | hc
      · omega
      · exact absurd h2 hc
    · rw [if_neg h2]
      exact ⟨rfl, fun _ hh => absurd hh h2, fun _ => rfl⟩
  · rw [if_neg h1]
    exact ⟨rfl, fun hh _ => absurd hh h1, fun _ => rfl⟩

/-- Witness for C7: [1,1] enables streaming and consumes 2 bytes; [2,1]
leaves the flag unchanged. -/
theorem write_cmd_semantics_witness :
    (write_cmd_cb false [1, 1]).2 = 2 ∧ (write_cmd_cb false [1, 1]).1 = true ∧
    (write_cmd_cb true [2, 1]).1 = true := by
  refine ⟨(write_cmd_semantics false [1, 1]).1, ?_, ?_⟩
  · have h := (write_cmd_semantics false [1, 1]).2.1 (by decide) (by decide)
    rw [h]
    decide
  · exact (write_cmd_semantics true [2, 1]).2.2 (Or.inr (by decide))
